import Mathlib

/- Shallow embedding of the roblox-vector-search-datagen core:
   the background job manager (jobManager.ts) over its SQLite-backed store,
   and the similarity-ranking routines of the vector-search endpoints
   (lib/tools.ts, endpoints/similarGames.get.ts, endpoints/vectorSearch.get.ts). -/

/-- Job status enumeration, mirroring `JobStatus` in jobManager.ts
    (`'pending' | 'running' | 'completed' | 'failed'`). -/
inductive JobStatus where
  | pending
  | running
  | completed
  | failed
deriving DecidableEq, Repr

/-- Model of the JSON-serializable JavaScript values a unit of work may resolve
    with and `updateJob` may receive in its `result` field.  `undef` models the
    JavaScript value `undefined` (a property that is absent behaves the same as
    one holding `undefined` under the `!== undefined` guards in `updateJob`).
    Numeric values are elided: none of the claims under study involve them. -/
inductive JsVal where
  | undef
  | jnull
  | jbool (b : Bool)
  | jstr (s : String)
  | jobj (fields : List (String × JsVal))

/-- Test for the JavaScript value `undefined`, as used by the
    `updates.result !== undefined` guard in `updateJob`. -/
def JsVal.isUndef : JsVal → Bool
  | .undef => true
  | _ => false

mutual
/-- Model of `JSON.stringify` restricted to the value model above: `undefined`
    serializes to no string at all (`none`), and object fields holding
    `undefined` are dropped.  String escaping of special characters inside
    string payloads is elided (the claims do not depend on it). -/
def jsonStringify : JsVal → Option String
  | .undef => none
  | .jnull => some "null"
  | .jbool b => some (if b then "true" else "false")
  | .jstr s => some ("\"" ++ s ++ "\"")
  | .jobj fields => some ("\x7b" ++ String.intercalate "," (jsonFields fields) ++ "\x7d")

/-- Serialize an object's field list, dropping fields whose value is `undefined`,
    as `JSON.stringify` does. -/
def jsonFields : List (String × JsVal) → List String
  | [] => []
  | (k, v) :: rest =>
    match jsonStringify v with
    | none => jsonFields rest
    | some sv => ("\"" ++ k ++ "\":" ++ sv) :: jsonFields rest
end

/-- Serialization applied by `updateJob` to a provided `result` value:
    `typeof updates.result === 'string' ? updates.result : JSON.stringify(updates.result)`.
    The `getD ""` default is unreachable in `updateJob`, whose guard excludes a
    top-level `undefined` before this function is applied. -/
def serializeResult : JsVal → String
  | .jstr s => s
  | v => (jsonStringify v).getD ""

/-- Model of the value thrown/rejected by a failing unit of work: either an
    `Error` object carrying a message, or any other thrown value. -/
inductive JsError where
  | errorObj (message : String)
  | nonError

/-- Conversion of a caught failure to the string recorded in the `error` column:
    `error instanceof Error ? error.message : 'Unknown error'` in `runJob`. -/
def describeError : JsError → String
  | .errorObj m => m
  | .nonError => "Unknown error"

/-- One row of the `jobs` table.  Timestamps are modelled as natural-number
    instants; `result` holds the serialized TEXT column (or NULL). -/
structure Job where
  id : String
  command : String
  status : JobStatus
  progress_current : Option Int
  progress_total : Option Int
  progress_message : Option String
  result : Option String
  error : Option String
  created_at : Nat
  started_at : Option Nat
  completed_at : Option Nat
deriving DecidableEq, Repr

/-- The `jobs` table, keyed by the `id` field (primary key). -/
abbrev Store := List Job

/-- Model of `SELECT * FROM jobs WHERE id = ?` (used by `getJob`). -/
def findJob (s : Store) (id : String) : Option Job :=
  s.find? (fun j => j.id == id)

/-- Model of `createJob`: INSERT a fresh `pending` row with `created_at` set and
    every other nullable column NULL.  The generated identifier and the clock
    reading are passed in as parameters. -/
def createJob (s : Store) (id command : String) (t : Nat) : Store :=
  s ++ [{ id := id, command := command, status := .pending,
          progress_current := none, progress_total := none, progress_message := none,
          result := none, error := none,
          created_at := t, started_at := none, completed_at := none }]

/-- The partial-update argument of `updateJob` (`Partial<Job>` restricted to the
    eight columns the function body applies).  For each field, `none` models the
    property being absent or `undefined`; for `started_at`/`completed_at` the
    inner `Option` distinguishes a `Date` (`some t`) from `null` (stored as NULL). -/
structure JobUpdates where
  status : Option JobStatus
  progress_current : Option Int
  progress_total : Option Int
  progress_message : Option String
  result : Option JsVal
  error : Option String
  started_at : Option (Option Nat)
  completed_at : Option (Option Nat)

/-- The empty update (no property provided). -/
def noUpdates : JobUpdates :=
  ⟨none, none, none, none, none, none, none, none⟩

/-- Whether the `result` field is provided in the sense of the code's
    `updates.result !== undefined` check. -/
def resultProvided (u : JobUpdates) : Bool :=
  match u.result with
  | some v => !v.isUndef
  | none => false

/-- Whether `updateJob`'s dynamically-built field list is nonempty
    (the negation of its `fields.length === 0` early return). -/
def hasFields (u : JobUpdates) : Bool :=
  u.status.isSome || u.progress_current.isSome || u.progress_total.isSome ||
  u.progress_message.isSome || resultProvided u || u.error.isSome ||
  u.started_at.isSome || u.completed_at.isSome

/-- Effect of the built UPDATE statement on the matched row: each provided
    column is overwritten (with `result` serialized), every other column is
    left untouched. -/
def applyUpdates (j : Job) (u : JobUpdates) : Job :=
  { j with
    status := u.status.getD j.status,
    progress_current := match u.progress_current with
      | some x => some x
      | none => j.progress_current,
    progress_total := match u.progress_total with
      | some x => some x
      | none => j.progress_total,
    progress_message := match u.progress_message with
      | some m => some m
      | none => j.progress_message,
    result := match u.result with
      | some v => if v.isUndef then j.result else some (serializeResult v)
      | none => j.result,
    error := match u.error with
      | some e => some e
      | none => j.error,
    started_at := match u.started_at with
      | some x => x
      | none => j.started_at,
    completed_at := match u.completed_at with
      | some x => x
      | none => j.completed_at }

/-- Notifications published by the job manager (an `EventEmitter`). -/
inductive Event where
  | jobUpdated (j : Job)
deriving DecidableEq, Repr

/-- Row transformation of `UPDATE jobs SET ... WHERE id = ?`: the matched row
    is rewritten by `applyUpdates`, every other row is untouched. -/
def updFun (id : String) (u : JobUpdates) (j : Job) : Job :=
  if j.id == id then applyUpdates j u else j

/-- Model of `updateJob(id, updates)`: no-op if the job does not exist or no
    field was provided; otherwise UPDATE the matched row, re-read it, and emit
    a single `jobUpdated` notification carrying the post-update record. -/
def updateJob (s : Store) (id : String) (u : JobUpdates) : Store × List Event :=
  match findJob s id with
  | none => (s, [])
  | some _ =>
    if hasFields u then
      let s' := s.map (updFun id u)
      (s', match findJob s' id with
           | some updated => [.jobUpdated updated]
           | none => [])
    else (s, [])

/-- Store component of `updateJob`. -/
def updateJobS (s : Store) (id : String) (u : JobUpdates) : Store :=
  (updateJob s id u).1

/-- The `{current, total, message}` triple accepted by `updateJobProgress`. -/
structure JobProgress where
  current : Int
  total : Int
  message : Option String

/-- The partial update `updateJobProgress` builds: the three progress columns
    (an absent `message` behaves as not provided). -/
def progressUpdates (p : JobProgress) : JobUpdates :=
  { noUpdates with
    progress_current := some p.current,
    progress_total := some p.total,
    progress_message := p.message }

/-- Model of `updateJobProgress`: a partial update restricted to the three
    progress columns. -/
def updateJobProgressS (s : Store) (id : String) (p : JobProgress) : Store :=
  updateJobS s id (progressUpdates p)

/-- Model of `deleteJob`: DELETE the row; report whether a row was removed. -/
def deleteJob (s : Store) (id : String) : Store × Bool :=
  (s.filter (fun j => j.id != id), s.any (fun j => j.id == id))

/-- Store component of `deleteJob`. -/
def deleteJobS (s : Store) (id : String) : Store :=
  (deleteJob s id).1

/-- The update `runJob` applies before invoking the unit of work. -/
def startUpdates (t : Nat) : JobUpdates :=
  { noUpdates with status := some .running, started_at := some (some t) }

/-- The update `runJob` applies when the unit of work resolves with `v`. -/
def completeUpdates (t : Nat) (v : JsVal) : JobUpdates :=
  { noUpdates with status := some .completed, completed_at := some (some t), result := some v }

/-- The update `runJob` applies when the unit of work rejects with `e`. -/
def failUpdates (t : Nat) (e : JsError) : JobUpdates :=
  { noUpdates with
    status := some .failed,
    completed_at := some (some t),
    error := some (describeError e) }

/-- First half of `runJob`: mark the job `running` and stamp `started_at`. -/
def runJobStart (s : Store) (id : String) (t : Nat) : Store :=
  updateJobS s id (startUpdates t)

/-- Second half of `runJob`: record the settled outcome of the unit of work. -/
def runJobFinish (s : Store) (id : String) (outcome : Except JsError JsVal) (t : Nat) : Store :=
  match outcome with
  | .ok v => updateJobS s id (completeUpdates t v)
  | .error e => updateJobS s id (failUpdates t e)

/-- Model of `runJob(id, commandFn)`: silent no-op when the job does not exist;
    otherwise mark it running, then record the outcome the awaited unit of work
    settled with.  The function is total: a rejection is absorbed into the
    `failed` row and never escapes to the caller.  `t1`/`t2` are the two clock
    readings (`new Date()` at start and at settlement). -/
def runJob (s : Store) (id : String) (outcome : Except JsError JsVal) (t1 t2 : Nat) : Store :=
  match findJob s id with
  | none => s
  | some _ => runJobFinish (runJobStart s id t1) id outcome t2

/-- Descending-by-`created_at` comparison used to model `ORDER BY created_at DESC`. -/
def createdDesc (a b : Job) : Prop :=
  b.created_at ≤ a.created_at

instance : DecidableRel createdDesc := fun a b => Nat.decLe b.created_at a.created_at

instance : IsTotal Job createdDesc :=
  ⟨fun a b => Nat.le_total b.created_at a.created_at⟩

instance : IsTrans Job createdDesc :=
  ⟨fun _ _ _ h1 h2 => Nat.le_trans h2 h1⟩

/-- Model of `getAllJobs(limit = 100, offset = 0)`:
    `SELECT * FROM jobs ORDER BY created_at DESC LIMIT ? OFFSET ?`.  The SQL
    sort is modelled by insertion sort on the descending-`created_at` order
    (ties between equal timestamps are resolved arbitrarily by the engine;
    a stable sort is one faithful resolution). -/
def getAllJobs (s : Store) (limit offset : Nat) : List Job :=
  ((s.insertionSort createdDesc).drop offset).take limit

/-- Number of rows with the given status, modelling one group of
    `SELECT status, COUNT(*) FROM jobs GROUP BY status`. -/
def countStatus (s : Store) (st : JobStatus) : Nat :=
  s.countP (fun j => j.status == st)

/-- The aggregate record returned by `getJobStats`. -/
structure JobStats where
  pending : Nat
  running : Nat
  completed : Nat
  failed : Nat
  total : Nat
deriving DecidableEq, Repr

/-- Model of `getJobStats`: one count per status (groups absent from the
    GROUP BY result contribute their initial 0) and `total` accumulated as the
    sum of the group counts. -/
def getJobStats (s : Store) : JobStats :=
  { pending := countStatus s .pending,
    running := countStatus s .running,
    completed := countStatus s .completed,
    failed := countStatus s .failed,
    total := countStatus s .pending + countStatus s .running +
             countStatus s .completed + countStatus s .failed }

/-- Model of `cosineSimilarity` in lib/tools.ts, computed over exact rationals
    with the square root passed in as a parameter (the properties stated over
    this model hold for every choice of `sqrt`, so `Math.sqrt` need not be
    fixed): dot product divided by the product of the two norms.  The indexed
    `a.reduce((sum, val, i) => sum + val * b[i], 0)` is rendered with `zip`,
    which agrees with it on the equal-length inputs the endpoints supply.
    CAUTION: rational division in Lean totalizes `x / 0` to `0`, whereas the
    source's `0 / 0` is NaN; this exact-rational model therefore does NOT
    capture the zero-norm error path and is used only for properties that are
    independent of score values (self-exclusion of the target id) or that also
    hold verbatim under IEEE semantics (symmetry).  Properties sensitive to
    NaN — the zero-norm behaviour and the sort order of the ranking — are
    stated over the float model `cosineSimilarityF` below, which tracks NaN
    and infinities. -/
def cosineSimilarity (sqrt : ℚ → ℚ) (a b : List ℚ) : ℚ :=
  let dotProduct := (a.zip b).foldl (fun sum p => sum + p.1 * p.2) 0
  let normA := sqrt (a.foldl (fun sum val => sum + val * val) 0)
  let normB := sqrt (b.foldl (fun sum val => sum + val * val) 0)
  dotProduct / (normA * normB)

/-- Descending-by-similarity comparison used to model
    `similarGames.sort((a, b) => b.similarity - a.similarity)`. -/
def scoreDesc (p q : Nat × ℚ) : Prop :=
  q.2 ≤ p.2

instance : DecidableRel scoreDesc := fun p q => inferInstanceAs (Decidable (q.2 ≤ p.2))

instance : IsTotal (Nat × ℚ) scoreDesc :=
  ⟨fun p q => le_total q.2 p.2⟩

instance : IsTrans (Nat × ℚ) scoreDesc :=
  ⟨fun _ _ _ h1 h2 => le_trans h2 h1⟩

/-- The `targetEmbedding` lookup of endpoints/similarGames.get.ts
    (`embeddings[universeId]`).  The `getD []` default is unreachable on the
    endpoint's path, which 404s before ranking when the target id has no
    embedding. -/
def targetEmbeddingOf (embeddings : List (Nat × List ℚ)) (universeId : Nat) : List ℚ :=
  ((embeddings.find? (fun p => p.1 == universeId)).map Prod.snd).getD []

/-- The `similarGames` accumulation loop of endpoints/similarGames.get.ts:
    score every entry of the embeddings record against the target's embedding,
    skipping the target's own id (`if (gameId === universeId) continue`). -/
def similarGamesOf (sqrt : ℚ → ℚ) (universeId : Nat)
    (embeddings : List (Nat × List ℚ)) : List (Nat × ℚ) :=
  (embeddings.filter (fun p => p.1 != universeId)).map
    (fun p => (p.1, cosineSimilarity sqrt (targetEmbeddingOf embeddings universeId) p.2))

/-- Model of the ranking core of endpoints/similarGames.get.ts: score the
    other entries, sort by similarity descending
    (`sort((a, b) => b.similarity - a.similarity)`), and `slice(0, limit)`. -/
def rankSimilar (sqrt : ℚ → ℚ) (universeId : Nat) (embeddings : List (Nat × List ℚ))
    (limit : Nat) : List (Nat × ℚ) :=
  ((similarGamesOf sqrt universeId embeddings).insertionSort scoreDesc).take limit

/-- Model of the popularity weight applied in endpoints/vectorSearch.get.ts:
    `Math.min(0.2, (gameMap.get(...)!.playerCount || 0) / 500) + 0.8`.
    `playerCount` is `none` when the field is absent (the `|| 0` fallback). -/
def popularityAdjustmentFactor (playerCount : Option ℚ) : ℚ :=
  min (2/10 : ℚ) (playerCount.getD 0 / 500) + 8/10

/-- IEEE-style JavaScript number model used to settle the zero-norm claim:
    a value is NaN, a signed infinity, or a finite number (modelled exactly by
    a rational; rounding and negative zero are elided, which the claims under
    study do not depend on). -/
inductive JsNum where
  | nan
  | inf (pos : Bool)
  | fin (x : ℚ)
deriving DecidableEq, Repr

/-- JavaScript addition on the number model: NaN propagates, opposite
    infinities give NaN. -/
def jsAdd : JsNum → JsNum → JsNum
  | .nan, _ => .nan
  | _, .nan => .nan
  | .inf p, .inf q => if p = q then .inf p else .nan
  | .inf p, .fin _ => .inf p
  | .fin _, .inf q => .inf q
  | .fin x, .fin y => .fin (x + y)

/-- JavaScript multiplication on the number model: NaN propagates, and
    `0 * Infinity` is NaN. -/
def jsMul : JsNum → JsNum → JsNum
  | .nan, _ => .nan
  | _, .nan => .nan
  | .inf p, .inf q => .inf (p = q)
  | .inf p, .fin x => if x = 0 then .nan else .inf (p = decide (0 < x))
  | .fin x, .inf q => if x = 0 then .nan else .inf (q = decide (0 < x))
  | .fin x, .fin y => .fin (x * y)

/-- JavaScript division on the number model: NaN propagates, `0 / 0` and
    `Infinity / Infinity` are NaN, a nonzero finite divided by zero is a
    signed infinity. -/
def jsDiv : JsNum → JsNum → JsNum
  | .nan, _ => .nan
  | _, .nan => .nan
  | .inf _, .inf _ => .nan
  | .inf p, .fin y => .inf (p = decide (0 ≤ y))
  | .fin _, .inf _ => .fin 0
  | .fin x, .fin y =>
    if y = 0 then (if x = 0 then .nan else .inf (decide (0 < x))) else .fin (x / y)

/-- Sum of squares of a vector under the number model, as computed by
    `a.reduce((sum, val) => sum + val * val, 0)` in `cosineSimilarity`. -/
def sumSquaresJs (a : List JsNum) : JsNum :=
  a.foldl (fun sum val => jsAdd sum (jsMul val val)) (.fin 0)

/-- Model of `cosineSimilarity` under JavaScript float semantics (NaN and
    infinities tracked), used to settle the zero-norm division claim.  The
    square root is a parameter constrained by hypotheses where needed. -/
def cosineSimilarityF (sqrt : JsNum → JsNum) (a b : List JsNum) : JsNum :=
  let dotProduct := (a.zip b).foldl (fun sum p => jsAdd sum (jsMul p.1 p.2)) (.fin 0)
  let normA := sqrt (sumSquaresJs a)
  let normB := sqrt (sumSquaresJs b)
  jsDiv dotProduct (jsMul normA normB)

/-- JavaScript subtraction on the number model, as computed by the ranking
    comparator `(a, b) => b.similarity - a.similarity`: NaN propagates, and the
    difference of equal-signed infinities is NaN. -/
def jsSub : JsNum → JsNum → JsNum
  | .nan, _ => .nan
  | _, .nan => .nan
  | .inf p, .inf q => if p = q then .nan else .inf p
  | .inf p, .fin _ => .inf p
  | .fin _, .inf q => .inf (!q)
  | .fin x, .fin y => .fin (x - y)

/-- The sort comparator of the ranking endpoints applied to elements `p` (as
    `a`) and `q` (as `b`): `b.similarity - a.similarity`, evaluated under the
    float model. -/
def rankComparator (p q : Nat × JsNum) : JsNum :=
  jsSub q.2 p.2

/-- Boolean form of the "may precede" relation the ECMAScript sort derives
    from the comparator (`CompareArrayElements`): `p` need not come after `q`
    when the comparator value is at most 0, a NaN comparator value being
    treated as `+0`.  On finite scores this is exactly descending score order;
    on a NaN score the relation is reflexive-symmetric ("equal" to everything)
    and not transitive, so the sorted order is not determined by scores. -/
def sortKeyLe (p q : Nat × JsNum) : Bool :=
  match rankComparator p q with
  | .nan => true
  | .inf pos => !pos
  | .fin c => decide (c ≤ 0)

/-- Propositional form of `sortKeyLe`, used as the sorting relation. -/
def sortLeF (p q : Nat × JsNum) : Prop :=
  sortKeyLe p q = true

instance : DecidableRel sortLeF :=
  fun p q => inferInstanceAs (Decidable (sortKeyLe p q = true))

/-- An element carries a finite (non-NaN, non-infinite) similarity score. -/
def finScore (p : Nat × JsNum) : Prop :=
  ∃ x : ℚ, p.2 = JsNum.fin x

/-- The `targetEmbedding` lookup of endpoints/similarGames.get.ts
    (`embeddings[universeId]`) under the float model; the `getD []` default is
    unreachable on the endpoint's path, which 404s before ranking when the
    target id has no embedding. -/
def targetEmbeddingOfF (embeddings : List (Nat × List JsNum)) (universeId : Nat) :
    List JsNum :=
  ((embeddings.find? (fun p => p.1 == universeId)).map Prod.snd).getD []

/-- The `similarGames` accumulation loop of endpoints/similarGames.get.ts under
    the float model: score every entry against the target's embedding, skipping
    the target's own id (`if (gameId === universeId) continue`). -/
def similarGamesF (sqrt : JsNum → JsNum) (universeId : Nat)
    (embeddings : List (Nat × List JsNum)) : List (Nat × JsNum) :=
  (embeddings.filter (fun p => p.1 != universeId)).map
    (fun p => (p.1, cosineSimilarityF sqrt (targetEmbeddingOfF embeddings universeId) p.2))

/-- Ranking core of endpoints/similarGames.get.ts under the float model:
    score the other entries, sort with the comparator-derived relation
    (`sort((a, b) => b.similarity - a.similarity)`, a stable sort under
    ECMAScript treating a NaN comparator value as 0), and `slice(0, limit)`. -/
def rankSimilarF (sqrt : JsNum → JsNum) (universeId : Nat)
    (embeddings : List (Nat × List JsNum)) (limit : Nat) : List (Nat × JsNum) :=
  ((similarGamesF sqrt universeId embeddings).insertionSort sortLeF).take limit

/-- An outcome is "defined" when a successful settlement carries a value other
    than `undefined` (a rejection always carries a description). -/
def okDefined : Except JsError JsVal → Bool
  | .ok v => !v.isUndef
  | .error _ => true

/-- States reachable from an empty store by the manager's operations, as the
    invariant claim delimits them: `createJob` (with a fresh generated id),
    `updateJobProgress`, `deleteJob`, and `runJob` invoked at most once per id.
    A `runJob` invocation is split into its two store writes so that the store
    observed while the unit of work is in flight (status `running`) is itself a
    reachable state.  `st` collects the ids whose `runJob` has begun and `fin`
    those whose `runJob` has settled; the side conditions on them say exactly
    that each id is run at most once.  The `okDefined` condition is the proviso
    of the amended claim: a successful unit of work resolves with a defined
    value. -/
inductive Reach : Store → List String → List String → Prop where
  | empty : Reach [] [] []
  | create (s : Store) (st fin : List String) (id cmd : String) (t : Nat) :
      Reach s st fin → findJob s id = none → Reach (createJob s id cmd t) st fin
  | progress (s : Store) (st fin : List String) (id : String) (p : JobProgress) :
      Reach s st fin → Reach (updateJobProgressS s id p) st fin
  | del (s : Store) (st fin : List String) (id : String) :
      Reach s st fin → Reach (deleteJobS s id) st fin
  | start (s : Store) (st fin : List String) (id : String) (t : Nat) :
      Reach s st fin → id ∉ st → Reach (runJobStart s id t) (id :: st) fin
  | finish (s : Store) (st fin : List String) (id : String)
      (outcome : Except JsError JsVal) (t : Nat) :
      Reach s st fin → id ∈ st → id ∉ fin → okDefined outcome = true →
      Reach (runJobFinish s id outcome t) st (id :: fin)

/-- Per-row population discipline relating `status` to `result`/`error`:
    neither populated before termination, exactly the matching one after. -/
def statusFieldsOK (j : Job) : Prop :=
  (j.status = .pending → j.result = none ∧ j.error = none) ∧
  (j.status = .running → j.result = none ∧ j.error = none) ∧
  (j.status = .completed → j.result.isSome ∧ j.error = none) ∧
  (j.status = .failed → j.error.isSome ∧ j.result = none)

/-- Induction invariant for `Reach`: every row satisfies the population
    discipline, a row whose id was never started is still `pending`, and a row
    whose id was never finished is still `pending` or `running`. -/
def StoreInv (s : Store) (st fin : List String) : Prop :=
  ∀ j ∈ s, statusFieldsOK j ∧
    (j.id ∉ st → j.status = .pending) ∧
    (j.id ∉ fin → j.status = .pending ∨ j.status = .running)

theorem applyUpdates_id (j : Job) (u : JobUpdates) : (applyUpdates j u).id = j.id := rfl

theorem applyUpdates_start (j : Job) (t : Nat) :
    applyUpdates j (startUpdates t) =
      { j with status := .running, started_at := some t } := rfl

theorem applyUpdates_fail (j : Job) (t : Nat) (e : JsError) :
    applyUpdates j (failUpdates t e) =
      { j with status := .failed, completed_at := some t,
               error := some (describeError e) } := rfl

theorem applyUpdates_complete (j : Job) (t : Nat) (v : JsVal) (hv : v.isUndef = false) :
    applyUpdates j (completeUpdates t v) =
      { j with status := .completed, completed_at := some t,
               result := some (serializeResult v) } := by
  simp [applyUpdates, completeUpdates, noUpdates, hv]

theorem applyUpdates_progress_status (j : Job) (p : JobProgress) :
    (applyUpdates j (progressUpdates p)).status = j.status := rfl

theorem applyUpdates_progress_result (j : Job) (p : JobProgress) :
    (applyUpdates j (progressUpdates p)).result = j.result := rfl

theorem applyUpdates_progress_error (j : Job) (p : JobProgress) :
    (applyUpdates j (progressUpdates p)).error = j.error := rfl

theorem findJob_map_upd (s : Store) (id : String) (u : JobUpdates) :
    findJob (s.map (updFun id u)) id = (findJob s id).map (fun j => applyUpdates j u) := by
  induction s with
  | nil => rfl
  | cons a s ih =>
    simp only [findJob, List.map_cons, List.find?] at ih ⊢
    cases ha : (a.id == id) with
    | true =>
      have hu : updFun id u a = applyUpdates a u := by simp [updFun, ha]
      have hid : ((applyUpdates a u).id == id) = true := by rw [applyUpdates_id]; exact ha
      rw [hu]
      simp [hid, ha]
    | false =>
      have hu : updFun id u a = a := by simp [updFun, ha]
      have hid : ((updFun id u a).id == id) = false := by rw [hu]; exact ha
      rw [hu, ha]
      simp only [ha] at hid
      simpa [ha] using ih

theorem updateJobS_cases (s : Store) (id : String) (u : JobUpdates) :
    updateJobS s id u = s ∨ updateJobS s id u = s.map (updFun id u) := by
  unfold updateJobS updateJob
  cases h : findJob s id with
  | none => exact Or.inl rfl
  | some j =>
    by_cases hf : hasFields u
    · simp [hf]
    · simp [hf]

theorem updateJobS_of_found (s : Store) (id : String) (u : JobUpdates) (j : Job)
    (h : findJob s id = some j) (hf : hasFields u = true) :
    updateJobS s id u = s.map (updFun id u) := by
  unfold updateJobS updateJob
  rw [h]
  simp [hf]

theorem findJob_updateJobS_of_found (s : Store) (id : String) (u : JobUpdates) (j : Job)
    (h : findJob s id = some j) (hf : hasFields u = true) :
    findJob (updateJobS s id u) id = some (applyUpdates j u) := by
  rw [updateJobS_of_found s id u j h hf, findJob_map_upd, h]
  rfl

theorem statusFieldsOK_congr (j j' : Job) (hs : j'.status = j.status)
    (hr : j'.result = j.result) (he : j'.error = j.error)
    (h : statusFieldsOK j) : statusFieldsOK j' := by
  unfold statusFieldsOK at *
  rw [hs, hr, he]
  exact h

theorem invConj_congr (st fin : List String) (j j' : Job) (hid : j'.id = j.id)
    (hs : j'.status = j.status) (hr : j'.result = j.result) (he : j'.error = j.error)
    (h : statusFieldsOK j ∧ (j.id ∉ st → j.status = .pending) ∧
         (j.id ∉ fin → j.status = .pending ∨ j.status = .running)) :
    statusFieldsOK j' ∧ (j'.id ∉ st → j'.status = .pending) ∧
      (j'.id ∉ fin → j'.status = .pending ∨ j'.status = .running) := by
  refine ⟨statusFieldsOK_congr j j' hs hr he h.1, ?_, ?_⟩
  · rw [hid, hs]; exact h.2.1
  · rw [hid, hs]; exact h.2.2

theorem reach_storeInv (s : Store) (st fin : List String) (h : Reach s st fin) :
    StoreInv s st fin := by
  induction h with
  | empty =>
    intro j hj
    cases hj
  | create s st fin id cmd t _ hfresh ih =>
    intro j hj
    rcases List.mem_append.mp hj with hj | hj
    · exact ih j hj
    · have hj' := List.mem_singleton.mp hj
      subst hj'
      exact ⟨by simp [statusFieldsOK], fun _ => rfl, fun _ => Or.inl rfl⟩
  | progress s st fin id p _ ih =>
    intro j' hj'
    simp only [updateJobProgressS] at hj'
    rcases updateJobS_cases s id (progressUpdates p) with hcase | hcase
    · rw [hcase] at hj'
      exact ih j' hj'
    · rw [hcase] at hj'
      rcases List.mem_map.mp hj' with ⟨j, hj, rfl⟩
      by_cases hid : j.id = id
      · have hupd : updFun id (progressUpdates p) j = applyUpdates j (progressUpdates p) := by
          simp [updFun, hid]
        rw [hupd]
        exact invConj_congr st fin j _ (applyUpdates_id j _)
          (applyUpdates_progress_status j p) (applyUpdates_progress_result j p)
          (applyUpdates_progress_error j p) (ih j hj)
      · have hupd : updFun id (progressUpdates p) j = j := by simp [updFun, hid]
        rw [hupd]
        exact ih j hj
  | del s st fin id _ ih =>
    intro j' hj'
    simp only [deleteJobS, deleteJob] at hj'
    exact ih j' (List.mem_of_mem_filter hj')
  | start s st fin id t _ hnotin ih =>
    intro j' hj'
    simp only [runJobStart] at hj'
    rcases updateJobS_cases s id (startUpdates t) with hcase | hcase
    · rw [hcase] at hj'
      obtain ⟨h1, h2, h3⟩ := ih j' hj'
      exact ⟨h1, fun hn => h2 (fun hm => hn (List.mem_cons_of_mem _ hm)), h3⟩
    · rw [hcase] at hj'
      rcases List.mem_map.mp hj' with ⟨j, hj, rfl⟩
      by_cases hid : j.id = id
      · have hupd : updFun id (startUpdates t) j = applyUpdates j (startUpdates t) := by
          simp [updFun, hid]
        obtain ⟨h1, h2, h3⟩ := ih j hj
        have hpend : j.status = .pending := h2 (by rw [hid]; exact hnotin)
        have hre : j.result = none ∧ j.error = none := h1.1 hpend
        rw [hupd, applyUpdates_start]
        refine ⟨?_, ?_, fun _ => Or.inr rfl⟩
        · simp [statusFieldsOK, hre.1, hre.2]
        · intro hn
          exact False.elim (hn (by simp [hid]))
      · have hupd : updFun id (startUpdates t) j = j := by simp [updFun, hid]
        rw [hupd]
        obtain ⟨h1, h2, h3⟩ := ih j hj
        exact ⟨h1, fun hn => h2 (fun hm => hn (List.mem_cons_of_mem _ hm)), h3⟩
  | finish s st fin id outcome t _ hinst hninfin hout ih =>
    intro j' hj'
    cases outcome with
    | ok v =>
      have hv : v.isUndef = false := by simpa [okDefined] using hout
      simp only [runJobFinish] at hj'
      rcases updateJobS_cases s id (completeUpdates t v) with hcase | hcase
      · rw [hcase] at hj'
        obtain ⟨h1, h2, h3⟩ := ih j' hj'
        exact ⟨h1, h2, fun hn => h3 (fun hm => hn (List.mem_cons_of_mem _ hm))⟩
      · rw [hcase] at hj'
        rcases List.mem_map.mp hj' with ⟨j, hj, rfl⟩
        by_cases hid : j.id = id
        · have hupd : updFun id (completeUpdates t v) j = applyUpdates j (completeUpdates t v) := by
            simp [updFun, hid]
          obtain ⟨h1, h2, h3⟩ := ih j hj
          have hpr : j.status = .pending ∨ j.status = .running :=
            h3 (by rw [hid]; exact hninfin)
          have hre : j.result = none ∧ j.error = none := by
            rcases hpr with hp | hp
            · exact h1.1 hp
            · exact h1.2.1 hp
          rw [hupd, applyUpdates_complete j t v hv]
          refine ⟨?_, ?_, ?_⟩
          · simp [statusFieldsOK, hre.2]
          · intro hn
            exact False.elim (hn (by simp [hid, hinst]))
          · intro hn
            exact False.elim (hn (by simp [hid]))
        · have hupd : updFun id (completeUpdates t v) j = j := by simp [updFun, hid]
          rw [hupd]
          obtain ⟨h1, h2, h3⟩ := ih j hj
          exact ⟨h1, h2, fun hn => h3 (fun hm => hn (List.mem_cons_of_mem _ hm))⟩
    | error e =>
      simp only [runJobFinish] at hj'
      rcases updateJobS_cases s id (failUpdates t e) with hcase | hcase
      · rw [hcase] at hj'
        obtain ⟨h1, h2, h3⟩ := ih j' hj'
        exact ⟨h1, h2, fun hn => h3 (fun hm => hn (List.mem_cons_of_mem _ hm))⟩
      · rw [hcase] at hj'
        rcases List.mem_map.mp hj' with ⟨j, hj, rfl⟩
        by_cases hid : j.id = id
        · have hupd : updFun id (failUpdates t e) j = applyUpdates j (failUpdates t e) := by
            simp [updFun, hid]
          obtain ⟨h1, h2, h3⟩ := ih j hj
          have hpr : j.status = .pending ∨ j.status = .running :=
            h3 (by rw [hid]; exact hninfin)
          have hre : j.result = none ∧ j.error = none := by
            rcases hpr with hp | hp
            · exact h1.1 hp
            · exact h1.2.1 hp
          rw [hupd, applyUpdates_fail]
          refine ⟨?_, ?_, ?_⟩
          · simp [statusFieldsOK, hre.1]
          · intro hn
            exact False.elim (hn (by simp [hid, hinst]))
          · intro hn
            exact False.elim (hn (by simp [hid]))
        · have hupd : updFun id (failUpdates t e) j = j := by simp [updFun, hid]
          rw [hupd]
          obtain ⟨h1, h2, h3⟩ := ih j hj
          exact ⟨h1, h2, fun hn => h3 (fun hm => hn (List.mem_cons_of_mem _ hm))⟩

/-- C1: for every job id present in the store, `runJob` whose unit of work
    resolves with a value `v` first sets the job to `running` with `started_at`
    stamped, and on resolution leaves it `completed` with `result` holding the
    serialized `v`, `error` absent, and `started_at <= completed_at`.  The
    hypotheses delimit the claim's lifecycle context: the job has no error
    recorded before the run (as every job created by `createJob` and run once
    has), the resolved value is an actual value (not `undefined`), and the
    second clock reading is not earlier than the first. -/
theorem runJob_success_lifecycle (s : Store) (id : String) (j : Job) (v : JsVal)
    (t1 t2 : Nat) (hfind : findJob s id = some j) (herr : j.error = none)
    (hv : v.isUndef = false) (ht : t1 ≤ t2) :
    (∃ jr, findJob (runJobStart s id t1) id = some jr ∧
      jr.status = .running ∧ jr.started_at = some t1) ∧
    (∃ jc, findJob (runJob s id (Except.ok v) t1 t2) id = some jc ∧
      jc.status = .completed ∧ jc.result = some (serializeResult v) ∧
      jc.error = none ∧ jc.started_at = some t1 ∧ jc.completed_at = some t2 ∧
      t1 ≤ t2) := by
  have hstart : hasFields (startUpdates t1) = true := rfl
  have hcomp : hasFields (completeUpdates t2 v) = true := rfl
  have h1 : findJob (runJobStart s id t1) id = some (applyUpdates j (startUpdates t1)) :=
    findJob_updateJobS_of_found s id (startUpdates t1) j hfind hstart
  have hrun : runJob s id (Except.ok v) t1 t2 =
      updateJobS (runJobStart s id t1) id (completeUpdates t2 v) := by
    unfold runJob
    rw [hfind]
    rfl
  have h2 : findJob (runJob s id (Except.ok v) t1 t2) id =
      some (applyUpdates (applyUpdates j (startUpdates t1)) (completeUpdates t2 v)) := by
    rw [hrun]
    exact findJob_updateJobS_of_found _ id _ _ h1 hcomp
  refine ⟨⟨_, h1, rfl, rfl⟩, ⟨_, h2, rfl, ?_, ?_, rfl, rfl, ht⟩⟩
  · simp [applyUpdates, completeUpdates, noUpdates, hv]
  · exact herr

/-- Witness for C1 at scenario B: a fresh job run with a unit of work resolving
    with the object payload corresponding to success. -/
theorem runJob_success_lifecycle_witness :
    (∃ jr, findJob (runJobStart (createJob [] "a" "noop-success" 0) "a" 1) "a" = some jr ∧
      jr.status = .running ∧ jr.started_at = some 1) ∧
    (∃ jc, findJob (runJob (createJob [] "a" "noop-success" 0) "a"
        (Except.ok (JsVal.jobj [("ok", JsVal.jbool true)])) 1 2) "a" = some jc ∧
      jc.status = .completed ∧
      jc.result = some (serializeResult (JsVal.jobj [("ok", JsVal.jbool true)])) ∧
      jc.error = none ∧ jc.started_at = some 1 ∧ jc.completed_at = some 2 ∧
      1 ≤ 2) :=
  runJob_success_lifecycle (createJob [] "a" "noop-success" 0) "a"
    ⟨"a", "noop-success", .pending, none, none, none, none, none, 0, none, none⟩
    (JsVal.jobj [("ok", JsVal.jbool true)]) 1 2 rfl rfl rfl (by decide)

/-- C2: for every job id present in the store, `runJob` whose unit of work
    rejects leaves the job `failed` with `completed_at` set, `error` holding
    the failure's descriptive string, and `result` absent.  The hypothesis
    `j.result = none` delimits the claim's lifecycle context (a job created by
    `createJob` and run once has no result recorded before the run).  The
    absorption half of the claim is reflected in the embedding itself:
    `runJob` is a total function into stores — a rejection is converted into
    the `failed` row and nothing propagates to the caller. -/
theorem runJob_failure_recorded (s : Store) (id : String) (j : Job) (e : JsError)
    (t1 t2 : Nat) (hfind : findJob s id = some j) (hres : j.result = none) :
    ∃ jf, findJob (runJob s id (Except.error e) t1 t2) id = some jf ∧
      jf.status = .failed ∧ jf.error = some (describeError e) ∧
      jf.result = none ∧ jf.completed_at = some t2 := by
  have hstart : hasFields (startUpdates t1) = true := rfl
  have hfail : hasFields (failUpdates t2 e) = true := rfl
  have h1 : findJob (runJobStart s id t1) id = some (applyUpdates j (startUpdates t1)) :=
    findJob_updateJobS_of_found s id (startUpdates t1) j hfind hstart
  have hrun : runJob s id (Except.error e) t1 t2 =
      updateJobS (runJobStart s id t1) id (failUpdates t2 e) := by
    unfold runJob
    rw [hfind]
    rfl
  have h2 : findJob (runJob s id (Except.error e) t1 t2) id =
      some (applyUpdates (applyUpdates j (startUpdates t1)) (failUpdates t2 e)) := by
    rw [hrun]
    exact findJob_updateJobS_of_found _ id _ _ h1 hfail
  exact ⟨_, h2, rfl, rfl, hres, rfl⟩

/-- Witness for C2 at scenario C: a fresh job whose unit of work rejects with
    the Error message boom. -/
theorem runJob_failure_recorded_witness :
    ∃ jf, findJob (runJob (createJob [] "a" "noop-failure" 0) "a"
        (Except.error (JsError.errorObj "boom")) 1 2) "a" = some jf ∧
      jf.status = .failed ∧ jf.error = some (describeError (JsError.errorObj "boom")) ∧
      jf.result = none ∧ jf.completed_at = some 2 :=
  runJob_failure_recorded (createJob [] "a" "noop-failure" 0) "a"
    ⟨"a", "noop-failure", .pending, none, none, none, none, none, 0, none, none⟩
    (JsError.errorObj "boom") 1 2 rfl rfl

/-- C3 (amended): in every state reachable from an empty store by the
    manager's operations (`createJob` with fresh ids, `runJob` called at most
    once per id, `updateJobProgress`, `deleteJob`) — including the states
    observed while a run is in flight — every stored job has exactly one of
    `result`/`error` populated when its status is `completed` or `failed`, and
    neither populated while `pending` or `running`, provided every unit of
    work that resolves successfully resolves with a defined (non-`undefined`)
    value.  Without that proviso the claim fails (see the counterexample): a
    work item resolving with `undefined` yields a `completed` job with neither
    field populated. -/
theorem reachable_result_error_discipline (s : Store) (st fin : List String)
    (h : Reach s st fin) :
    ∀ j ∈ s, ((j.status = .completed ∨ j.status = .failed) →
        (j.result.isSome ∧ j.error = none) ∨ (j.error.isSome ∧ j.result = none)) ∧
      ((j.status = .pending ∨ j.status = .running) →
        j.result = none ∧ j.error = none) := by
  intro j hj
  obtain ⟨h1, _, _⟩ := reach_storeInv s st fin h j hj
  constructor
  · rintro (hc | hc)
    · exact Or.inl (h1.2.2.1 hc)
    · exact Or.inr (h1.2.2.2 hc)
  · rintro (hp | hp)
    · exact h1.1 hp
    · exact h1.2.1 hp

/-- Counterexample to C3 as stated: from the empty store, one `createJob` and
    one `runJob` whose unit of work resolves with `undefined` reach a state
    whose job is `completed` with NEITHER `result` nor `error` populated — the
    `updates.result !== undefined` guard silently drops the result column. -/
theorem runJob_undefined_result_counterexample :
    findJob (runJob (createJob [] "a" "cmd" 0) "a" (Except.ok JsVal.undef) 1 2) "a" =
      some ⟨"a", "cmd", .completed, none, none, none, none, none, 0, some 1, some 2⟩ ∧
    (⟨"a", "cmd", .completed, none, none, none, none, none, 0, some 1, some 2⟩ : Job).status =
      .completed ∧
    (⟨"a", "cmd", .completed, none, none, none, none, none, 0, some 1, some 2⟩ : Job).result =
      none ∧
    (⟨"a", "cmd", .completed, none, none, none, none, none, 0, some 1, some 2⟩ : Job).error =
      none := by
  refine ⟨?_, rfl, rfl, rfl⟩
  rfl

/-- The store reached in the witness for C3: create a job, start it, finish it
    with a defined boolean payload. -/
def c3Store : Store :=
  runJobFinish (runJobStart (createJob [] "a" "cmd" 0) "a" 1) "a"
    (Except.ok (JsVal.jbool true)) 2

/-- The job the witness store holds. -/
def c3Job : Job :=
  ⟨"a", "cmd", .completed, none, none, none, some "true", none, 0, some 1, some 2⟩

/-- Witness for C3: the discipline holds of the concrete job in a concrete
    reachable store. -/
theorem reachable_result_error_discipline_witness :
    ((c3Job.status = .completed ∨ c3Job.status = .failed) →
        (c3Job.result.isSome ∧ c3Job.error = none) ∨
        (c3Job.error.isSome ∧ c3Job.result = none)) ∧
      ((c3Job.status = .pending ∨ c3Job.status = .running) →
        c3Job.result = none ∧ c3Job.error = none) :=
  reachable_result_error_discipline c3Store ["a"] ["a"]
    (Reach.finish (runJobStart (createJob [] "a" "cmd" 0) "a" 1) ["a"] [] "a"
      (Except.ok (JsVal.jbool true)) 2
      (Reach.start (createJob [] "a" "cmd" 0) [] [] "a" 1
        (Reach.create [] [] [] "a" "cmd" 0 Reach.empty rfl)
        (by simp))
      (by simp) (by simp) rfl)
    c3Job (by decide)

/-- C4: `updateJob(id, updates)` modifies exactly the provided fields of the
    matched row and leaves every field not provided (and every other row, and
    the immutable `id`/`command`/`created_at` columns) unchanged; it is a
    no-op emitting nothing when the job does not exist or no field was
    provided; on a successful update it emits exactly one `jobUpdated`
    notification carrying the full post-update record.  A `result` property
    holding `undefined` counts as not provided (the code's `!== undefined`
    guard). -/
theorem updateJob_partial_frame (s : Store) (id : String) (u : JobUpdates) :
    (findJob s id = none → updateJob s id u = (s, [])) ∧
    (hasFields u = false → updateJob s id u = (s, [])) ∧
    (∀ j, findJob s id = some j → hasFields u = true →
      (updateJob s id u).1 = s.map (updFun id u) ∧
      findJob (updateJob s id u).1 id = some (applyUpdates j u) ∧
      (updateJob s id u).2 = [Event.jobUpdated (applyUpdates j u)] ∧
      (applyUpdates j u).id = j.id ∧
      (applyUpdates j u).command = j.command ∧
      (applyUpdates j u).created_at = j.created_at ∧
      (u.status = none → (applyUpdates j u).status = j.status) ∧
      (∀ v, u.status = some v → (applyUpdates j u).status = v) ∧
      (u.progress_current = none →
        (applyUpdates j u).progress_current = j.progress_current) ∧
      (∀ x, u.progress_current = some x → (applyUpdates j u).progress_current = some x) ∧
      (u.progress_total = none →
        (applyUpdates j u).progress_total = j.progress_total) ∧
      (∀ x, u.progress_total = some x → (applyUpdates j u).progress_total = some x) ∧
      (u.progress_message = none →
        (applyUpdates j u).progress_message = j.progress_message) ∧
      (∀ m, u.progress_message = some m → (applyUpdates j u).progress_message = some m) ∧
      (u.result = none → (applyUpdates j u).result = j.result) ∧
      (∀ v, u.result = some v → v.isUndef = true →
        (applyUpdates j u).result = j.result) ∧
      (∀ v, u.result = some v → v.isUndef = false →
        (applyUpdates j u).result = some (serializeResult v)) ∧
      (u.error = none → (applyUpdates j u).error = j.error) ∧
      (∀ m, u.error = some m → (applyUpdates j u).error = some m) ∧
      (u.started_at = none → (applyUpdates j u).started_at = j.started_at) ∧
      (∀ x, u.started_at = some x → (applyUpdates j u).started_at = x) ∧
      (u.completed_at = none → (applyUpdates j u).completed_at = j.completed_at) ∧
      (∀ x, u.completed_at = some x → (applyUpdates j u).completed_at = x) ∧
      (∀ j2 ∈ s, j2.id ≠ id → j2 ∈ (updateJob s id u).1)) := by
  refine ⟨?_, ?_, ?_⟩
  · intro h
    unfold updateJob
    rw [h]
  · intro h
    unfold updateJob
    cases hf : findJob s id with
    | none => rfl
    | some j => simp [h]
  · intro j hj hf
    have hstore : (updateJob s id u).1 = s.map (updFun id u) := by
      unfold updateJob
      rw [hj]
      simp [hf]
    have hfind2 : findJob (updateJob s id u).1 id = some (applyUpdates j u) := by
      rw [hstore, findJob_map_upd, hj]
      rfl
    have hev : (updateJob s id u).2 = [Event.jobUpdated (applyUpdates j u)] := by
      unfold updateJob
      rw [hj]
      simp [hf, findJob_map_upd, hj]
    refine ⟨hstore, hfind2, hev, rfl, rfl, rfl, ?_, ?_, ?_, ?_, ?_, ?_, ?_, ?_, ?_, ?_,
      ?_, ?_, ?_, ?_, ?_, ?_, ?_, ?_⟩
    · intro h
      simp [applyUpdates, h]
    · intro v h
      simp [applyUpdates, h]
    · intro h
      simp [applyUpdates, h]
    · intro x h
      simp [applyUpdates, h]
    · intro h
      simp [applyUpdates, h]
    · intro x h
      simp [applyUpdates, h]
    · intro h
      simp [applyUpdates, h]
    · intro m h
      simp [applyUpdates, h]
    · intro h
      simp [applyUpdates, h]
    · intro v h hv
      simp [applyUpdates, h, hv]
    · intro v h hv
      simp [applyUpdates, h, hv]
    · intro h
      simp [applyUpdates, h]
    · intro m h
      simp [applyUpdates, h]
    · intro h
      simp [applyUpdates, h]
    · intro x h
      simp [applyUpdates, h]
    · intro h
      simp [applyUpdates, h]
    · intro x h
      simp [applyUpdates, h]
    · intro j2 hj2 hne
      rw [hstore]
      exact List.mem_map.mpr ⟨j2, hj2, by simp [updFun, hne]⟩

/-- Witness for C4: a concrete progress update on a fresh job stores exactly
    the three progress fields and emits one notification with the post-update
    record; an unknown id and an empty update are no-ops that emit nothing. -/
theorem updateJob_partial_frame_witness :
    (updateJob (createJob [] "b" "cmd" 3) "b" (progressUpdates ⟨3, 10, some "working"⟩)).2 =
      [Event.jobUpdated
        ⟨"b", "cmd", .pending, some 3, some 10, some "working", none, none, 3, none, none⟩] ∧
    findJob (updateJob (createJob [] "b" "cmd" 3) "b"
        (progressUpdates ⟨3, 10, some "working"⟩)).1 "b" =
      some ⟨"b", "cmd", .pending, some 3, some 10, some "working", none, none, 3, none, none⟩ ∧
    updateJob (createJob [] "b" "cmd" 3) "nope" (progressUpdates ⟨3, 10, some "working"⟩) =
      (createJob [] "b" "cmd" 3, []) ∧
    updateJob (createJob [] "b" "cmd" 3) "b" noUpdates = (createJob [] "b" "cmd" 3, []) := by
  have h := (updateJob_partial_frame (createJob [] "b" "cmd" 3) "b"
      (progressUpdates ⟨3, 10, some "working"⟩)).2.2
    ⟨"b", "cmd", .pending, none, none, none, none, none, 3, none, none⟩ rfl rfl
  exact ⟨h.2.2.1, h.2.1,
    (updateJob_partial_frame (createJob [] "b" "cmd" 3) "nope"
      (progressUpdates ⟨3, 10, some "working"⟩)).1 rfl,
    (updateJob_partial_frame (createJob [] "b" "cmd" 3) "b" noUpdates).2.1 rfl⟩

theorem countStatus_total (s : Store) :
    countStatus s .pending + countStatus s .running + countStatus s .completed +
      countStatus s .failed = s.length := by
  induction s with
  | nil => rfl
  | cons j s ih =>
    unfold countStatus at *
    cases h : j.status <;> simp [List.countP_cons, h] <;> omega

/-- C5 (amended): the total reported by `getJobStats` equals the number of
    stored jobs, and equals the number of jobs returned by the unfiltered list
    operation whenever the window passed to it covers the whole store; each
    per-status count equals the number of stored jobs with that status.  (As
    literally stated the claim fails for stores larger than the default window
    `limit = 100` — see the counterexample.) -/
theorem stats_match_list_and_store (s : Store) (limit : Nat) (hl : s.length ≤ limit) :
    (getJobStats s).total = s.length ∧
    (getAllJobs s limit 0).length = (getJobStats s).total ∧
    (getJobStats s).pending = (s.filter (fun j => j.status == .pending)).length ∧
    (getJobStats s).running = (s.filter (fun j => j.status == .running)).length ∧
    (getJobStats s).completed = (s.filter (fun j => j.status == .completed)).length ∧
    (getJobStats s).failed = (s.filter (fun j => j.status == .failed)).length := by
  have htot : (getJobStats s).total = s.length := countStatus_total s
  have hsortlen : (s.insertionSort createdDesc).length = s.length :=
    (List.perm_insertionSort createdDesc s).length_eq
  refine ⟨htot, ?_, ?_, ?_, ?_, ?_⟩
  · rw [htot]
    simp [getAllJobs, List.length_take, hsortlen, Nat.min_eq_right hl]
  · exact List.countP_eq_length_filter _ _
  · exact List.countP_eq_length_filter _ _
  · exact List.countP_eq_length_filter _ _
  · exact List.countP_eq_length_filter _ _

/-- A store holding 101 jobs, exceeding the default list window of 100. -/
def bigStore : Store :=
  (List.range 101).map
    (fun i => ⟨toString i, "cmd", .pending, none, none, none, none, none, i, none, none⟩)

theorem bigStore_length : bigStore.length = 101 := by
  unfold bigStore
  rw [List.length_map, List.length_range]

/-- Counterexample to C5 as stated: with 101 stored jobs, `getJobStats` reports
    `total = 101` while the list operation with no filters — `getAllJobs` at
    its default window `limit = 100, offset = 0` — returns only 100 jobs. -/
theorem stats_default_list_counterexample :
    (getJobStats bigStore).total = 101 ∧ (getAllJobs bigStore 100 0).length = 100 := by
  constructor
  · have h := countStatus_total bigStore
    have hp : countStatus bigStore .pending = 101 := by
      rw [show (101 : Nat) = bigStore.length from bigStore_length.symm]
      refine List.countP_eq_length.mpr ?_
      intro j hj
      rcases List.mem_map.mp hj with ⟨i, _, rfl⟩
      rfl
    have hr : countStatus bigStore .running = 0 := by
      refine List.countP_eq_zero.mpr ?_
      intro j hj
      rcases List.mem_map.mp hj with ⟨i, _, rfl⟩
      simp
    have hc : countStatus bigStore .completed = 0 := by
      refine List.countP_eq_zero.mpr ?_
      intro j hj
      rcases List.mem_map.mp hj with ⟨i, _, rfl⟩
      simp
    have hf : countStatus bigStore .failed = 0 := by
      refine List.countP_eq_zero.mpr ?_
      intro j hj
      rcases List.mem_map.mp hj with ⟨i, _, rfl⟩
      simp
    simp [getJobStats, hp, hr, hc, hf]
  · have hsortlen : (bigStore.insertionSort createdDesc).length = bigStore.length :=
      (List.perm_insertionSort createdDesc bigStore).length_eq
    unfold getAllJobs
    rw [List.length_take, List.drop_zero, hsortlen, bigStore_length]
    rfl

/-- Witness for C5 (amended) on a concrete two-job store whose window covers
    the store. -/
theorem stats_match_list_and_store_witness :
    (getJobStats [⟨"a", "c", .pending, none, none, none, none, none, 0, none, none⟩,
        ⟨"b", "c", .failed, none, none, none, none, some "boom", 1, none, some 2⟩]).total = 2 ∧
    (getAllJobs [⟨"a", "c", .pending, none, none, none, none, none, 0, none, none⟩,
        ⟨"b", "c", .failed, none, none, none, none, some "boom", 1, none, some 2⟩] 100 0).length = 2 := by
  have h := stats_match_list_and_store
    [⟨"a", "c", .pending, none, none, none, none, none, 0, none, none⟩,
     ⟨"b", "c", .failed, none, none, none, none, some "boom", 1, none, some 2⟩] 100 (by decide)
  exact ⟨h.1, h.2.1.trans h.1⟩

/-- C6: for every corpus of (id, vector) pairs containing an entry for the
    target, the similarity ranking for that target never includes the target's
    own id in its output, for every result bound.  (The skip
    `if (gameId === universeId) continue` removes it before scoring; the
    conclusion holds for every square-root function and bound.) -/
theorem rankSimilar_self_exclusion (sqrt : ℚ → ℚ) (uid : Nat)
    (embeddings : List (Nat × List ℚ)) (k : Nat)
    (hmem : uid ∈ embeddings.map Prod.fst) :
    uid ∉ (rankSimilar sqrt uid embeddings k).map Prod.fst := by
  intro hin
  rcases List.mem_map.mp hin with ⟨p, hp, hpid⟩
  have hp1 : p ∈ (similarGamesOf sqrt uid embeddings).insertionSort scoreDesc :=
    List.mem_of_mem_take hp
  have hp2 : p ∈ similarGamesOf sqrt uid embeddings :=
    (List.perm_insertionSort scoreDesc _).subset hp1
  rcases List.mem_map.mp hp2 with ⟨q, hq, rfl⟩
  have hqf := List.mem_filter.mp hq
  simp only [bne_iff_ne, ne_eq, decide_eq_true_eq] at hqf
  exact hqf.2 hpid

/-- Witness for C6 at the spec's scenario A corpus: ranking for id 1 (present
    in the corpus) excludes id 1. -/
theorem rankSimilar_self_exclusion_witness :
    1 ∈ ([(1, [(1 : ℚ), 0]), (2, [0, 1]), (3, [1, 0])].map Prod.fst) ∧
    1 ∉ (rankSimilar (fun q => q) 1 [(1, [(1 : ℚ), 0]), (2, [0, 1]), (3, [1, 0])] 2).map
      Prod.fst :=
  ⟨by decide,
   rankSimilar_self_exclusion (fun q => q) 1 [(1, [(1 : ℚ), 0]), (2, [0, 1]), (3, [1, 0])] 2
     (by decide)⟩

theorem sortLeF_total_of_fin (p q : Nat × JsNum) (hp : finScore p) (hq : finScore q) :
    sortLeF p q ∨ sortLeF q p := by
  obtain ⟨x, hx⟩ := hp
  obtain ⟨y, hy⟩ := hq
  unfold sortLeF sortKeyLe rankComparator
  rw [hx, hy]
  simp only [jsSub, decide_eq_true_eq]
  rcases le_total y x with h | h
  · exact Or.inl (by linarith)
  · exact Or.inr (by linarith)

theorem sortLeF_trans_of_fin (p q r : Nat × JsNum) (hp : finScore p) (hq : finScore q)
    (hr : finScore r) (h1 : sortLeF p q) (h2 : sortLeF q r) : sortLeF p r := by
  obtain ⟨x, hx⟩ := hp
  obtain ⟨y, hy⟩ := hq
  obtain ⟨z, hz⟩ := hr
  unfold sortLeF sortKeyLe rankComparator at h1 h2 ⊢
  rw [hx, hy] at h1
  rw [hy, hz] at h2
  rw [hx, hz]
  simp only [jsSub, decide_eq_true_eq] at h1 h2 ⊢
  linarith

theorem orderedInsert_sorted_fin (a : Nat × JsNum) (ha : finScore a) :
    ∀ l : List (Nat × JsNum), (∀ p ∈ l, finScore p) → l.Sorted sortLeF →
    (l.orderedInsert sortLeF a).Sorted sortLeF := by
  intro l
  induction l with
  | nil =>
    intro _ _
    simp [List.orderedInsert]
  | cons b l ih =>
    intro hl hs
    by_cases hab : sortLeF a b
    · rw [List.orderedInsert, if_pos hab, List.sorted_cons]
      refine ⟨?_, hs⟩
      intro x hx
      rcases List.mem_cons.mp hx with rfl | hx
      · exact hab
      · exact sortLeF_trans_of_fin a b x ha (hl b (List.mem_cons_self b l))
          (hl x (List.mem_cons_of_mem _ hx)) hab ((List.sorted_cons.mp hs).1 x hx)
    · rw [List.orderedInsert, if_neg hab]
      obtain ⟨hbl, hsl⟩ := List.sorted_cons.mp hs
      rw [List.sorted_cons]
      refine ⟨?_, ih (fun p hp => hl p (List.mem_cons_of_mem _ hp)) hsl⟩
      intro x hx
      rcases (List.mem_orderedInsert sortLeF).mp hx with rfl | hx
      · rcases sortLeF_total_of_fin x b ha (hl b (List.mem_cons_self b l)) with h | h
        · exact absurd h hab
        · exact h
      · exact hbl x hx

theorem insertionSort_sorted_fin (l : List (Nat × JsNum)) (hl : ∀ p ∈ l, finScore p) :
    (l.insertionSort sortLeF).Sorted sortLeF := by
  induction l with
  | nil => simp [List.insertionSort]
  | cons a l ih =>
    rw [List.insertionSort]
    exact orderedInsert_sorted_fin a (hl a (List.mem_cons_self a l)) _
      (fun p hp => hl p (List.mem_cons_of_mem _
        ((List.perm_insertionSort sortLeF l).subset hp)))
      (ih (fun p hp => hl p (List.mem_cons_of_mem _ hp)))

/-- C9: in the popularity-adjusted ranking variant, for every item with a
    non-negative player count (an absent count is treated as 0 by the `|| 0`
    fallback), the weight multiplier `min(0.2, playerCount / 500) + 0.8`
    applied to the cosine similarity lies in the range [0.8, 1.0]. -/
theorem popularityAdjustmentFactor_bounds (playerCount : Option ℚ)
    (h : ∀ x, playerCount = some x → 0 ≤ x) :
    8/10 ≤ popularityAdjustmentFactor playerCount ∧
      popularityAdjustmentFactor playerCount ≤ 1 := by
  have h0 : 0 ≤ playerCount.getD 0 := by
    cases playerCount with
    | none => norm_num
    | some x => exact h x rfl
  unfold popularityAdjustmentFactor
  constructor
  · have hmin : (0 : ℚ) ≤ min (2/10) (playerCount.getD 0 / 500) :=
      le_min (by norm_num) (by positivity)
    linarith
  · have hmin : min (2/10 : ℚ) (playerCount.getD 0 / 500) ≤ 2/10 := min_le_left _ _
    linarith

/-- Witness for C9 at a concrete player count of 1000 (weight saturates at 1)
    and at an absent player count (weight 0.8). -/
theorem popularityAdjustmentFactor_bounds_witness :
    (8/10 ≤ popularityAdjustmentFactor (some 1000) ∧
      popularityAdjustmentFactor (some 1000) ≤ 1) ∧
    (8/10 ≤ popularityAdjustmentFactor none ∧ popularityAdjustmentFactor none ≤ 1) :=
  ⟨popularityAdjustmentFactor_bounds (some 1000) (fun x hx => by
      injection hx with hx
      rw [← hx]
      norm_num),
   popularityAdjustmentFactor_bounds none (fun x hx => by cases hx)⟩

theorem dot_foldl_swap (l : List (ℚ × ℚ)) : ∀ init : ℚ,
    (l.map Prod.swap).foldl (fun sum p => sum + p.1 * p.2) init =
      l.foldl (fun sum p => sum + p.1 * p.2) init := by
  induction l with
  | nil => intro init; rfl
  | cons p l ih =>
    intro init
    simp only [List.map_cons, List.foldl_cons, Prod.fst_swap, Prod.snd_swap]
    rw [mul_comm]
    exact ih _

/-- C10: `cosineSimilarity` is symmetric — for every pair of equal-length
    vectors `a` and `b` (and every square-root function), the similarity of
    `a` to `b` equals that of `b` to `a`: the dot product is commutative and
    the two norms enter the denominator as a commutative product.  (In the
    `zip`-rendered embedding the equal-length hypothesis delimits the inputs
    on which the model coincides with the indexed JavaScript loop.) -/
theorem cosineSimilarity_symm (sqrt : ℚ → ℚ) (a b : List ℚ) (h : a.length = b.length) :
    cosineSimilarity sqrt a b = cosineSimilarity sqrt b a := by
  have hdot : (b.zip a).foldl (fun sum p => sum + p.1 * p.2) (0 : ℚ) =
      (a.zip b).foldl (fun sum p => sum + p.1 * p.2) (0 : ℚ) := by
    rw [← List.zip_swap a b, dot_foldl_swap]
  show ((a.zip b).foldl (fun sum p => sum + p.1 * p.2) 0) /
      (sqrt (a.foldl (fun sum val => sum + val * val) 0) *
       sqrt (b.foldl (fun sum val => sum + val * val) 0)) =
    ((b.zip a).foldl (fun sum p => sum + p.1 * p.2) 0) /
      (sqrt (b.foldl (fun sum val => sum + val * val) 0) *
       sqrt (a.foldl (fun sum val => sum + val * val) 0))
  rw [hdot, mul_comm]

/-- Witness for C10 at a concrete pair of equal-length vectors. -/
theorem cosineSimilarity_symm_witness :
    ([(1 : ℚ), 2].length = [(3 : ℚ), 4].length) ∧
    cosineSimilarity (fun q => q) [(1 : ℚ), 2] [(3 : ℚ), 4] =
      cosineSimilarity (fun q => q) [(3 : ℚ), 4] [(1 : ℚ), 2] :=
  ⟨rfl, cosineSimilarity_symm (fun q => q) [(1 : ℚ), 2] [(3 : ℚ), 4] rfl⟩

theorem sumSquares_zero_aux (a : List JsNum) :
    (∀ v ∈ a, ∃ x : ℚ, v = JsNum.fin x) → ∀ c : ℚ, 0 ≤ c →
    a.foldl (fun sum val => jsAdd sum (jsMul val val)) (JsNum.fin c) = JsNum.fin 0 →
    c = 0 ∧ ∀ v ∈ a, v = JsNum.fin 0 := by
  induction a with
  | nil =>
    intro _ c _ h
    refine ⟨?_, ?_⟩
    · simpa [JsNum.fin.injEq] using h
    · intro v hv
      cases hv
  | cons v a ih =>
    intro hfin c hc h
    obtain ⟨x, rfl⟩ := hfin v (List.mem_cons_self v a)
    have hstep : jsAdd (JsNum.fin c) (jsMul (JsNum.fin x) (JsNum.fin x)) =
        JsNum.fin (c + x * x) := rfl
    rw [List.foldl_cons, hstep] at h
    have hc' : 0 ≤ c + x * x := add_nonneg hc (mul_self_nonneg x)
    obtain ⟨hzero, hall⟩ :=
      ih (fun w hw => hfin w (List.mem_cons_of_mem _ hw)) (c + x * x) hc' h
    have hx : x = 0 := by nlinarith [mul_self_nonneg x]
    refine ⟨by nlinarith [mul_self_nonneg x], ?_⟩
    intro w hw
    rcases List.mem_cons.mp hw with rfl | hw
    · rw [hx]
    · exact hall w hw

theorem jsMul_zero_left (w : JsNum) :
    jsMul (JsNum.fin 0) w = JsNum.fin 0 ∨ jsMul (JsNum.fin 0) w = JsNum.nan := by
  cases w with
  | nan => exact Or.inr rfl
  | inf q => exact Or.inr (by simp [jsMul])
  | fin y => exact Or.inl (by simp [jsMul])

theorem jsMul_zero_right (w : JsNum) :
    jsMul w (JsNum.fin 0) = JsNum.fin 0 ∨ jsMul w (JsNum.fin 0) = JsNum.nan := by
  cases w with
  | nan => exact Or.inr rfl
  | inf q => exact Or.inr (by simp [jsMul])
  | fin y => exact Or.inl (by simp [jsMul])

theorem dot_zero_aux (l : List (JsNum × JsNum)) :
    (∀ p ∈ l, jsMul p.1 p.2 = JsNum.fin 0 ∨ jsMul p.1 p.2 = JsNum.nan) →
    ∀ acc : JsNum, (acc = JsNum.fin 0 ∨ acc = JsNum.nan) →
    (l.foldl (fun sum p => jsAdd sum (jsMul p.1 p.2)) acc = JsNum.fin 0 ∨
     l.foldl (fun sum p => jsAdd sum (jsMul p.1 p.2)) acc = JsNum.nan) := by
  induction l with
  | nil =>
    intro _ acc hacc
    exact hacc
  | cons p l ih =>
    intro hl acc hacc
    have hp := hl p (List.mem_cons_self p l)
    have hnext : jsAdd acc (jsMul p.1 p.2) = JsNum.fin 0 ∨
        jsAdd acc (jsMul p.1 p.2) = JsNum.nan := by
      rcases hacc with rfl | rfl <;> rcases hp with hp | hp <;> rw [hp] <;>
        simp [jsAdd]
    rw [List.foldl_cons]
    exact ih (fun q hq => hl q (List.mem_cons_of_mem _ hq)) _ hnext

theorem jsDiv_zero_cases (d den : JsNum)
    (hd : d = JsNum.fin 0 ∨ d = JsNum.nan)
    (hden : den = JsNum.fin 0 ∨ den = JsNum.nan) : jsDiv d den = JsNum.nan := by
  rcases hd with rfl | rfl <;> rcases hden with rfl | rfl <;> simp [jsDiv]

/-- C8 (amended): when the query vector OR a corpus vector has zero norm (all
    entries finite with sum of squares 0, as a zero vector has), the
    cosine-similarity scoring under JavaScript float semantics produces NaN —
    the implementation does NOT guard the division, and the undefined value
    `0 / 0` flows into the ranking.  The square-root function is only assumed
    to map 0 to 0, as `Math.sqrt` does; the other vector is arbitrary. -/
theorem cosineSimilarity_zero_norm_nan (sqrt : JsNum → JsNum) (a b : List JsNum)
    (hzero : ((∀ v ∈ a, ∃ x : ℚ, v = JsNum.fin x) ∧ sumSquaresJs a = JsNum.fin 0) ∨
             ((∀ v ∈ b, ∃ x : ℚ, v = JsNum.fin x) ∧ sumSquaresJs b = JsNum.fin 0))
    (hs0 : sqrt (JsNum.fin 0) = JsNum.fin 0) :
    cosineSimilarityF sqrt a b = JsNum.nan := by
  show jsDiv ((a.zip b).foldl (fun sum p => jsAdd sum (jsMul p.1 p.2)) (JsNum.fin 0))
      (jsMul (sqrt (sumSquaresJs a)) (sqrt (sumSquaresJs b))) = JsNum.nan
  rcases hzero with ⟨hfin, hz⟩ | ⟨hfin, hz⟩
  · obtain ⟨-, hall⟩ := sumSquares_zero_aux a hfin 0 le_rfl hz
    have hdot := dot_zero_aux (a.zip b)
      (fun p hp => by
        rw [hall p.1 (List.of_mem_zip hp).1]
        exact jsMul_zero_left p.2)
      (JsNum.fin 0) (Or.inl rfl)
    have hden : jsMul (sqrt (sumSquaresJs a)) (sqrt (sumSquaresJs b)) = JsNum.fin 0 ∨
        jsMul (sqrt (sumSquaresJs a)) (sqrt (sumSquaresJs b)) = JsNum.nan := by
      rw [hz, hs0]
      exact jsMul_zero_left _
    exact jsDiv_zero_cases _ _ hdot hden
  · obtain ⟨-, hall⟩ := sumSquares_zero_aux b hfin 0 le_rfl hz
    have hdot := dot_zero_aux (a.zip b)
      (fun p hp => by
        rw [hall p.2 (List.of_mem_zip hp).2]
        exact jsMul_zero_right p.1)
      (JsNum.fin 0) (Or.inl rfl)
    have hden : jsMul (sqrt (sumSquaresJs a)) (sqrt (sumSquaresJs b)) = JsNum.fin 0 ∨
        jsMul (sqrt (sumSquaresJs a)) (sqrt (sumSquaresJs b)) = JsNum.nan := by
      rw [hz, hs0]
      exact jsMul_zero_right _
    exact jsDiv_zero_cases _ _ hdot hden

/-- Counterexample to C8 as stated: the query vector `[0]` has zero norm, and
    the scoring of `[0]` against the corpus vector `[1]` evaluates to NaN
    (`0 / 0`), not a defined result — there is no guard on the division.  The
    square root is instantiated with the identity function, which agrees with
    `Math.sqrt` on the only values taken here (0 and 1). -/
theorem cosineSimilarity_zero_norm_counterexample :
    sumSquaresJs [JsNum.fin 0] = JsNum.fin 0 ∧
    cosineSimilarityF (fun x => x) [JsNum.fin 0] [JsNum.fin 1] = JsNum.nan := by
  have hq : sumSquaresJs [JsNum.fin 0] = JsNum.fin 0 := by
    show jsAdd (JsNum.fin 0) (jsMul (JsNum.fin 0) (JsNum.fin 0)) = JsNum.fin 0
    simp [jsAdd, jsMul]
  have hb : sumSquaresJs [JsNum.fin 1] = JsNum.fin 1 := by
    show jsAdd (JsNum.fin 0) (jsMul (JsNum.fin 1) (JsNum.fin 1)) = JsNum.fin 1
    simp [jsAdd, jsMul]
  have hdot : ([JsNum.fin 0].zip [JsNum.fin 1]).foldl
      (fun sum p => jsAdd sum (jsMul p.1 p.2)) (JsNum.fin 0) = JsNum.fin 0 := by
    show jsAdd (JsNum.fin 0) (jsMul (JsNum.fin 0) (JsNum.fin 1)) = JsNum.fin 0
    simp [jsAdd, jsMul]
  refine ⟨hq, ?_⟩
  show jsDiv (([JsNum.fin 0].zip [JsNum.fin 1]).foldl
      (fun sum p => jsAdd sum (jsMul p.1 p.2)) (JsNum.fin 0))
    (jsMul (sumSquaresJs [JsNum.fin 0]) (sumSquaresJs [JsNum.fin 1])) = JsNum.nan
  rw [hdot, hq, hb]
  simp [jsMul, jsDiv]

/-- Witness for C8 (amended): a zero query vector scored against a finite
    corpus vector, and a finite query vector scored against a zero corpus
    vector, both evaluate to NaN. -/
theorem cosineSimilarity_zero_norm_nan_witness :
    cosineSimilarityF (fun x => x) [JsNum.fin 0, JsNum.fin 0]
      [JsNum.fin 2, JsNum.fin 3] = JsNum.nan ∧
    cosineSimilarityF (fun x => x) [JsNum.fin 1, JsNum.fin 0]
      [JsNum.fin 0, JsNum.fin 0] = JsNum.nan :=
  ⟨cosineSimilarity_zero_norm_nan (fun x => x) [JsNum.fin 0, JsNum.fin 0]
      [JsNum.fin 2, JsNum.fin 3]
      (Or.inl ⟨(fun v hv => by
          rcases List.mem_cons.mp hv with rfl | hv
          · exact ⟨0, rfl⟩
          · rcases List.mem_cons.mp hv with rfl | hv
            · exact ⟨0, rfl⟩
            · cases hv),
        (by
          show jsAdd (jsAdd (JsNum.fin 0) (jsMul (JsNum.fin 0) (JsNum.fin 0)))
            (jsMul (JsNum.fin 0) (JsNum.fin 0)) = JsNum.fin 0
          simp [jsAdd, jsMul])⟩) rfl,
   cosineSimilarity_zero_norm_nan (fun x => x) [JsNum.fin 1, JsNum.fin 0]
      [JsNum.fin 0, JsNum.fin 0]
      (Or.inr ⟨(fun v hv => by
          rcases List.mem_cons.mp hv with rfl | hv
          · exact ⟨0, rfl⟩
          · rcases List.mem_cons.mp hv with rfl | hv
            · exact ⟨0, rfl⟩
            · cases hv),
        (by
          show jsAdd (jsAdd (JsNum.fin 0) (jsMul (JsNum.fin 0) (JsNum.fin 0)))
            (jsMul (JsNum.fin 0) (JsNum.fin 0)) = JsNum.fin 0
          simp [jsAdd, jsMul])⟩) rfl⟩
